import Mathlib

/-!
Shallow embedding of `src/gulp-html-partial.js` (Adalab/gulp-html-partial).

The plugin resolves `<partial src="..." key="value"/>` tags in an HTML
document by splicing in the referenced file, recursively, substituting
`@@key` placeholders.  The source discovers tags and attributes with
JavaScript regular expressions; those specific regexes are embedded here as
explicit backtracking matchers over `List Char`, with the exact greedy/lazy
and lookahead behaviour of the source patterns.

External collaborators that are not part of this repository
(`html.prettyPrint`, `gulp-util` colouring, `through2` stream plumbing) are
modelled from the spec where noted.
-/

/-- JavaScript `\s` (whitespace) character class, as used by the source's
attribute regex. -/
def jsWS (c : Char) : Bool :=
  c == ' ' || c == '\t' || c == '\n' || c == '\x0b' || c == '\x0c' ||
  c == '\r' || c == '\u00a0' || c == '\u1680' || c == '\u2000' ||
  c == '\u2001' || c == '\u2002' || c == '\u2003' || c == '\u2004' ||
  c == '\u2005' || c == '\u2006' || c == '\u2007' || c == '\u2008' ||
  c == '\u2009' || c == '\u200a' || c == '\u2028' || c == '\u2029' ||
  c == '\u202f' || c == '\u205f' || c == '\u3000' || c == '\ufeff'

/-- JavaScript `.` (dot) in a non-dotAll regex: any char except line
terminators. -/
def jsDot (c : Char) : Bool :=
  !(c == '\n' || c == '\r' || c == '\u2028' || c == '\u2029')

/-- The character class `["']` from the source's attribute regex. -/
def isQuote (c : Char) : Bool :=
  c == '"' || c == Char.ofNat 39

/-- `startsWithL pat l` : does `l` begin with `pat`? -/
def startsWithL : List Char → List Char → Bool
  | [], _ => true
  | _ :: _, [] => false
  | p :: ps, c :: cs => p == c && startsWithL ps cs

/-- Expansion of a JavaScript string replacement (ECMAScript
`GetSubstitution`) for a pattern with no capture groups: interprets the
dollar sequences of `repl` against the match (`matched`), the text before
it (`before`) and the text after it (`after`).  Any other `$` sequence
(including `$1`, since there are no capture groups) is literal. -/
def expandReplGo (matched before after : List Char) : List Char → List Char
  | [] => []
  | c :: t =>
    if c == '$' then
      match t with
      | [] => ['$']
      | d :: t2 =>
        if d == '$' then '$' :: expandReplGo matched before after t2
        else if d == '&' then matched ++ expandReplGo matched before after t2
        else if d == Char.ofNat 96 then before ++ expandReplGo matched before after t2
        else if d == Char.ofNat 39 then after ++ expandReplGo matched before after t2
        else '$' :: d :: expandReplGo matched before after t2
    else c :: expandReplGo matched before after t

/-- Global replacement `s.replace(new RegExp(pat-literal, 'g'), repl)` for a
literal (fully escaped) pattern `pat`, including JavaScript dollar
expansion of the replacement.  `orig` is the whole subject string and `i`
the absolute position of `l` inside it (invariant: `l = orig.drop i`). -/
def jsReplaceAllGo (pat repl orig : List Char) : Nat → Nat → List Char → List Char
  | 0, _, l => l
  | _fuel + 1, i, [] =>
    if pat.isEmpty then expandReplGo [] (orig.take i) (orig.drop i) repl else []
  | fuel + 1, i, c :: t =>
    if pat.isEmpty then
      expandReplGo [] (orig.take i) (orig.drop i) repl ++
        c :: jsReplaceAllGo pat repl orig fuel (i + 1) t
    else if startsWithL pat (c :: t) then
      expandReplGo pat (orig.take i) (orig.drop (i + pat.length)) repl ++
        jsReplaceAllGo pat repl orig fuel (i + pat.length) ((c :: t).drop pat.length)
    else c :: jsReplaceAllGo pat repl orig fuel (i + 1) t

/-- `String.replace(searchString, repl)` with a *string* search value: only
the first occurrence is replaced, with dollar expansion of `repl`. -/
def jsReplaceFirstGo (pat repl orig : List Char) : Nat → List Char → List Char
  | i, [] =>
    if startsWithL pat [] then
      expandReplGo pat (orig.take i) (orig.drop (i + pat.length)) repl ++
        orig.drop (i + pat.length)
    else []
  | i, c :: t =>
    if startsWithL pat (c :: t) then
      expandReplGo pat (orig.take i) (orig.drop (i + pat.length)) repl ++
        orig.drop (i + pat.length)
    else c :: jsReplaceFirstGo pat repl orig (i + 1) t

/-- Global replacement over a string.  The fuel `s.length + 1` is an upper
bound on the number of scanning steps: every step either ends the scan or
advances at least one character. -/
def jsReplaceAll (s pat repl : String) : String :=
  String.mk (jsReplaceAllGo pat.data repl.data s.data (s.data.length + 1) 0 s.data)

def jsReplaceFirst (s pat repl : String) : String :=
  String.mk (jsReplaceFirstGo pat.data repl.data s.data 0 s.data)

/-- The character class `[-\/\\^$*+?.()|[\]{}]` from the source's
`escapeRegExp`. -/
def escClass (c : Char) : Bool :=
  c == '-' || c == '/' || c == '\\' || c == '^' || c == '$' || c == '*' ||
  c == '+' || c == '?' || c == '.' || c == '(' || c == ')' || c == '|' ||
  c == '[' || c == ']' || c == '{' || c == '}'

/-- `escapeRegExp` from the source: prefixes every character of `escClass`
with a backslash (the source's replacement string `'\\$&'`). -/
def escapeRegExp : List Char → List Char
  | [] => []
  | c :: t => if escClass c then '\\' :: c :: escapeRegExp t else c :: escapeRegExp t

/-- A character that has special meaning when it appears unescaped in a
JavaScript regular expression. -/
def isRegexMeta (c : Char) : Bool :=
  c == '\\' || c == '^' || c == '$' || c == '*' || c == '+' || c == '?' ||
  c == '.' || c == '(' || c == ')' || c == '|' || c == '[' || c == ']' ||
  c == '{' || c == '}'

/-- Interpretation of a regex pattern that lies in the literal fragment:
backslash-escaped characters denote themselves, unescaped non-metacharacters
denote themselves, and a pattern containing an unescaped metacharacter is
outside the fragment (`none`).  A regex in this fragment matches exactly the
returned literal string. -/
def unescapePattern : List Char → Option (List Char)
  | [] => some []
  | c :: t =>
    if c == '\\' then
      match t with
      | [] => none
      | d :: t2 => (unescapePattern t2).map (fun r => d :: r)
    else if isRegexMeta c then none
    else (unescapePattern t).map (fun r => c :: r)

/-- One parsed `key=value` attribute. -/
structure Attribute where
  key : String
  value : String
deriving DecidableEq, Repr

/-- The first alternative `["']?\s+(?:\S+)=` of the negative lookahead in the
source's attribute regex, evaluated at a position: an optional quote, then
whitespace, then a non-whitespace run containing `=` after at least one
character. -/
def lookAheadNextAttr (l : List Char) : Bool :=
  let l1 := match l with
    | c :: t => if isQuote c then t else l
    | [] => l
  let l2 := l1.dropWhile jsWS
  let r := l2.takeWhile (fun c => !jsWS c)
  !(l1.takeWhile jsWS).isEmpty && (r.drop 1).contains '='

/-- The second alternative `[>"']` of the negative lookahead. -/
def lookAheadEnd (l : List Char) : Bool :=
  match l with
  | c :: _ => c == '>' || isQuote c
  | [] => false

/-- Number of characters consumed by the greedy `+` in the value pattern
`(?:.(?!["']?\s+(?:\S+)=|[>"']))+.`: each iteration consumes a dot-matching
character whose successor position fails both lookahead alternatives. -/
def iterRun : List Char → Nat
  | [] => 0
  | c :: t =>
    if jsDot c && !lookAheadNextAttr t && !lookAheadEnd t then 1 + iterRun t
    else 0

/-- Is the character at index `m` of `v` matched by `.`? -/
def dotAt (v : List Char) (m : Nat) : Bool :=
  match v.get? m with
  | some c => jsDot c
  | none => false

/-- Length of the value capture `(?:.(?!...))+.` when matched greedily (with
backtracking of the final `.`) against `v`; `none` when it cannot match.
The group consumes at least two characters: the `+` needs one iteration and
the final `.` one more character. -/
def valueLen (v : List Char) : Option Nat :=
  if iterRun v == 0 then none
  else if dotAt v (iterRun v) then some (iterRun v + 1)
  else if 2 ≤ iterRun v then some (iterRun v)
  else none

/-- Length consumed by the trailing optional quote `["']?`. -/
def closeQuoteLen : List Char → Nat
  | c :: _ => if isQuote c then 1 else 0
  | [] => 0

/-- The value group together with the trailing optional quote, matched
against `start`: value capture and consumed length. -/
def valueTail (start : List Char) : Option (String × Nat) :=
  match valueLen start with
  | some n => some (String.mk (start.take n), n + closeQuoteLen (start.drop n))
  | none => none

/-- Matching of the attribute regex after the literal `=`: the optional
opening quote `["']?` is tried greedily (consumed first, dropped by
backtracking when the value group cannot match after it), then the value
group, then the trailing optional quote.  Returns the value capture and the
number of characters consumed after the `=`. -/
def afterEq (rest : List Char) : Option (String × Nat) :=
  match rest with
  | [] => none
  | c :: t =>
    if isQuote c then
      match valueTail t with
      | some (v, n) => some (v, 1 + n)
      | none => valueTail rest
    else valueTail rest

/-- Backtracking for the greedy `(\S+)=` opening of the attribute regex
anchored at the start of `l`: the longest candidate key is tried first (a
key of length `k` requires `l` to carry `=` at index `k` and no whitespace
before it); when the remainder of the pattern fails, a shorter key is tried.
Returns the parsed attribute and the total match length. -/
def keySearch (l : List Char) : Nat → Option (Attribute × Nat)
  | 0 => none
  | k + 1 =>
    if (l.take (k + 1)).all (fun c => !jsWS c) && l.get? (k + 1) == some '=' then
      match afterEq (l.drop (k + 2)) with
      | some (v, n) => some (⟨String.mk (l.take (k + 1)), v⟩, (k + 2) + n)
      | none => keySearch l k
    else keySearch l k

/-- One attempt of the attribute regex anchored at the start of `l`. -/
def tryMatchAttr (l : List Char) : Option (Attribute × Nat) :=
  keySearch l l.length

/-- Combine one anchored attempt with the result of searching the tail
(offsets shifted by one). -/
def findMatchStep (r : Option (Attribute × Nat))
    (rec : Option (Attribute × Nat × Nat)) : Option (Attribute × Nat × Nat) :=
  match r with
  | some (a, n) => some (a, 0, n)
  | none => rec.map (fun x => (x.1, x.2.1 + 1, x.2.2))

/-- Leftmost match of the attribute regex: attempts every start position in
order, as a JavaScript regex engine does.  Returns the attribute, the offset
of the match and its length. -/
def findMatchAttr : List Char → Option (Attribute × Nat × Nat)
  | [] => none
  | c :: t => findMatchStep (tryMatchAttr (c :: t)) (findMatchAttr t)

/-- Continuation of the attribute scan after one leftmost search. -/
def getAttrsCont (r : Option (Attribute × Nat × Nat))
    (rec : List Char → List Attribute) (l : List Char) : List Attribute :=
  match r with
  | some (a, off, n) => a :: rec (l.drop (off + n))
  | none => []

/-- The `while` loop of the source's `getAttributes`: repeated
`regexp.exec` with the `g` flag, each search resuming after the previous
match.  `fuel` bounds the number of iterations; every match consumes at
least one character, so `l.length` iterations suffice. -/
def getAttrsAux : Nat → List Char → List Attribute
  | 0, _ => []
  | fuel + 1, l => getAttrsCont (findMatchAttr l) (getAttrsAux fuel) l

/-- `getAttributes` from the source: all matches of
`/(\S+)=["']?((?:.(?!["']?\s+(?:\S+)=|[>"']))+.)["']?/g` over the tag text,
as key/value pairs in match order. -/
def getAttributes (tag : String) : List Attribute :=
  getAttrsAux tag.data.length tag.data

/-- Largest `j` such that the first `j` characters of `rest` are all matched
by `.` and `close` occurs at position `j`: the greedy `(.*)`, backtracking
from the longest extent, of the source's closed-tag regex. -/
def greedyFind (close : List Char) : List Char → Option Nat
  | [] => if startsWithL close [] then some 0 else none
  | c :: t =>
    match (if jsDot c then (greedyFind close t).map (· + 1) else none) with
    | some j => some j
    | none => if startsWithL close (c :: t) then some 0 else none

/-- Smallest such `j`: the lazy `(.*?)` of the source's self-closing-tag
regex. -/
def lazyFind (close : List Char) : List Char → Option Nat
  | [] => if startsWithL close [] then some 0 else none
  | c :: t =>
    if startsWithL close (c :: t) then some 0
    else if jsDot c then (lazyFind close t).map (· + 1) else none

/-- Match of the closed-form regex `<tagName(.*)/tagName>` anchored at `l`:
returns the match length. -/
def closedMatchAt (tagName : String) (l : List Char) : Option Nat :=
  if startsWithL ('<' :: tagName.data) l then
    (greedyFind ('/' :: (tagName.data ++ ['>'])) (l.drop (tagName.data.length + 1))).map
      (fun j => (tagName.data.length + 1) + j + (tagName.data.length + 2))
  else none

/-- Match of the self-closing regex `<tagName(.*?)\/>` anchored at `l`:
returns the match length. -/
def selfMatchAt (tagName : String) (l : List Char) : Option Nat :=
  if startsWithL ('<' :: tagName.data) l then
    (lazyFind ['/', '>'] (l.drop (tagName.data.length + 1))).map
      (fun j => (tagName.data.length + 1) + j + 2)
  else none

/-- Continuation of one scanning step. -/
def scanTagsCont (r : Option Nat) (rec : List Char → List String)
    (l : List Char) : List String :=
  match r with
  | some n => String.mk (l.take n) :: rec (l.drop n)
  | none =>
    match l with
    | [] => []
    | _ :: t => rec t

/-- All matches of a `g`-flagged regex given its anchored matcher: leftmost
match first, each further search resuming at the end of the previous match.
`fuel` bounds the iterations; `l.length + 1` suffices since every match is
nonempty. -/
def scanTags (matchAt : List Char → Option Nat) : Nat → List Char → List String
  | 0, _ => []
  | fuel + 1, l =>
    match l with
    | [] => []
    | _ => scanTagsCont (matchAt l) (scanTags matchAt fuel) l

/-- `getTags` from the source: matches of the closed-form regex followed by
matches of the self-closing regex. -/
def getTags (tagName : String) (s : String) : List String :=
  scanTags (closedMatchAt tagName) (s.data.length + 1) s.data ++
    scanTags (selfMatchAt tagName) (s.data.length + 1) s.data

/-- The plugin settings (`options` in the source). -/
structure Options where
  tagName : String
  basePath : String
  variablePrefix : String
deriving DecidableEq, Repr

/-- The default settings of the source. -/
def defaultOptions : Options :=
  { tagName := "partial", basePath := "", variablePrefix := "@@" }

/-- The filesystem: an association of paths to file contents. -/
abbrev FS := List (String × String)

/-- `fs.existsSync` against the modelled filesystem. -/
def existsSync (fs : FS) (p : String) : Bool :=
  (fs.find? (fun e => e.1 == p)).isSome

/-- `fs.readFileSync` against the modelled filesystem (only reached under an
`existsSync` guard in the source). -/
def readFileSync (fs : FS) (p : String) : String :=
  ((fs.find? (fun e => e.1 == p)).map (fun e => e.2)).getD ""

def pluginName : String := "gulp-html-partial"

/-- A single quote character, used inside log messages. -/
def singleQuote : String := String.mk [Char.ofNat 39]

/-- Modelled from the spec: errors are reported as human-readable lines
tagged with a fixed plugin-name prefix; the terminal colouring applied by
the external `gulp-util` (`gutil.colors.red`) is cosmetic and omitted.  The
line mirrors `gutil.log(pluginName + ':', message)`, which joins its
arguments with a space. -/
def logLine (msg : String) : String := pluginName ++ ": " ++ msg

/-- The error line for a tag with no usable `src` attribute. -/
def missingSrcMsg : String :=
  logLine ("Some partial does not have " ++ singleQuote ++ "src" ++
    singleQuote ++ " attribute")

/-- The error line for a `src` path that does not exist. -/
def notFoundMsg (p : String) : String :=
  logLine ("File " ++ p ++ " does not exist.")

/-- The `content.replace(/\r?\n|\r/g, ' ')` step of `injectHTML`: every
line break (`\r\n` as a unit, lone `\n`, or lone `\r`) becomes a single
space.  `prevCR` records whether the previous character was a `\r` whose
space has already been emitted, so that the `\n` of a `\r\n` pair emits
nothing. -/
def collapseGo (prevCR : Bool) : List Char → List Char
  | [] => []
  | c :: t =>
    if c == '\r' then ' ' :: collapseGo true t
    else if c == '\n' then
      (if prevCR then collapseGo false t else ' ' :: collapseGo false t)
    else c :: collapseGo false t

def collapseNewlinesL (l : List Char) : List Char := collapseGo false l

/-- Accumulator pass splitting a character list into maximal
whitespace-separated words (`cur` holds the current word reversed). -/
def wsTokensGo (cur : List Char) : List Char → List (List Char)
  | [] => if cur.isEmpty then [] else [cur.reverse]
  | c :: t =>
    if jsWS c then
      if cur.isEmpty then wsTokensGo [] t else cur.reverse :: wsTokensGo [] t
    else wsTokensGo (c :: cur) t

/-- Maximal whitespace-separated words of a character list. -/
def wsTokens (l : List Char) : List (List Char) := wsTokensGo [] l

/-- Modelled from the spec: the external `html.prettyPrint` library (not
part of this repository) reflows the final document cosmetically, altering
only whitespace and indentation, never semantic content.  It is modelled as
the canonical whitespace normal form: every maximal whitespace run becomes
a single space and outer whitespace is trimmed. -/
def prettyPrint (s : String) : String :=
  String.intercalate " " ((wsTokens s.data).map String.mk)

/-- The normalization step of `injectHTML` before scanning: collapse line
breaks to spaces, then break the line before every `<tagName` and after
every `tagName>`.  The source builds these two regexes from `tagName`
without escaping; as in the source, the tag name is taken to be
regex-neutral. -/
def normalizeDoc (opts : Options) (s : String) : String :=
  let c1 := String.mk (collapseNewlinesL s.data)
  let c2 := jsReplaceAll c1 ("<" ++ opts.tagName) ("\n<" ++ opts.tagName)
  jsReplaceAll c2 (opts.tagName ++ ">") (opts.tagName ++ ">\n")

/-- One step of `replaceAttributes`: `html.replace(new
RegExp(escapeRegExp(variablePrefix + key), 'g'), value)`.  The escaped
pattern is interpreted through `unescapePattern` (always `some`, by
`unescapePattern_escapeRegExp`), and the replacement value undergoes
JavaScript dollar expansion. -/
def substituteOne (opts : Options) (content : String) (a : Attribute) : String :=
  jsReplaceAll content
    (String.mk ((unescapePattern (escapeRegExp (opts.variablePrefix ++ a.key).data)).getD []))
    a.value

/-- `replaceAttributes` from the source: starting from the loaded content
(`''` when the file is absent), fold every non-`src` attribute through one
global replacement, in attribute order. -/
def replaceAttributes (opts : Options) (file : Option String)
    (attributes : List Attribute) : String :=
  attributes.foldl (substituteOne opts) (file.getD "")

/-- `getPartial` from the source, with the recursive `injectHTML` call
abstracted as `inj`: partition the attributes around `src` (lodash
`partition` keeps order), then read and recursively resolve the referenced
file, or log an error and leave the content undefined; finally substitute
the variable attributes.  The `sourcePath && ...` truthiness test of the
source makes an empty-string `src` value count as missing. -/
def getPartialAux (inj : String → String × List String) (opts : Options)
    (fs : FS) (attributes : List Attribute) : String × List String :=
  let srcs := attributes.filter (fun a => a.key == "src")
  let others := attributes.filter (fun a => !(a.key == "src"))
  match srcs.head? with
  | none => (replaceAttributes opts none others, [missingSrcMsg])
  | some a =>
    if a.value == "" then (replaceAttributes opts none others, [missingSrcMsg])
    else if existsSync fs (opts.basePath ++ a.value) then
      let r := inj (readFileSync fs (opts.basePath ++ a.value))
      (replaceAttributes opts (some r.1) others, r.2)
    else (replaceAttributes opts none others, [notFoundMsg (opts.basePath ++ a.value)])

/-- `injectHTML` from the source on a buffered payload: normalize, scan for
tags, resolve each tag (`getHTML` + `getPartial`), splice every resolved
partial over the first occurrence of its tag text (`output.replace(tag,
partial)`), and pretty-print.  `fuel` bounds the include-nesting depth; at
fuel `0` (never reached for finitely nested inputs given enough fuel) the
payload is returned unresolved.  The second component collects the error
log lines in emission order. -/
def injectString : Nat → Options → FS → String → String × List String
  | 0, _, _, s => (s, [])
  | fuel + 1, opts, fs, s =>
    let c := normalizeDoc opts s
    let tags := getTags opts.tagName c
    let prs := tags.map (fun t =>
      getPartialAux (fun str => injectString fuel opts fs str) opts fs (getAttributes t))
    ((tags.zip prs).foldl (fun acc tp => jsReplaceFirst acc tp.1 tp.2.1) c |> prettyPrint,
      prs.foldl (fun acc p => acc ++ p.2) [])

/-- `getPartial` from the source at a given nesting budget. -/
def getPartial (fuel : Nat) (opts : Options) (fs : FS)
    (attributes : List Attribute) : String × List String :=
  getPartialAux (fun str => injectString fuel opts fs str) opts fs attributes

/-- `getHTML` from the source: scan for tags, resolve each, and splice the
results over the first occurrence of each tag text. -/
def getHTML (fuel : Nat) (opts : Options) (fs : FS) (s : String) :
    String × List String :=
  let tags := getTags opts.tagName s
  let prs := tags.map (fun t => getPartial fuel opts fs (getAttributes t))
  ((tags.zip prs).foldl (fun acc tp => jsReplaceFirst acc tp.1 tp.2.1) s,
    prs.foldl (fun acc p => acc ++ p.2) [])

/-- The vinyl file object reaching the transform stream, as an explicit
tagged variant (the source branches on `file.isStream()` and
`file.isBuffer()`; a file that is neither, e.g. a null file, is pushed
through untouched). -/
inductive FileObj where
  | streamFile : String → FileObj
  | bufferFile : String → FileObj
  | nullFile : FileObj
deriving DecidableEq, Repr

/-- The error emitted for streaming input. -/
def streamsErrMsg : String := "Streams are not supported"

/-- The per-file behaviour of the source's `transform` stream callback: a
streaming file emits an error and passes through unmodified; a buffered
file is resolved through `injectHTML`; anything else passes through.  The
second component is the error/log side channel. -/
def transformOne (fuel : Nat) (opts : Options) (fs : FS) :
    FileObj → FileObj × List String
  | FileObj.streamFile s => (FileObj.streamFile s, [streamsErrMsg])
  | FileObj.bufferFile s =>
    let r := injectString fuel opts fs s
    (FileObj.bufferFile r.1, r.2)
  | FileObj.nullFile => (FileObj.nullFile, [])

/-- A caller-supplied configuration: the keys optionally given to
`transform(config)`. -/
structure Config where
  tagName : Option String := none
  basePath : Option String := none
  variablePrefix : Option String := none
deriving DecidableEq, Repr

/-- `Object.assign(options, config)` from the source: the module-level
`options` object is merged in place with the supplied keys, so keys absent
from `config` retain whatever value the previous invocation left. -/
def applyConfig (o : Options) (c : Config) : Options :=
  { tagName := c.tagName.getD o.tagName,
    basePath := c.basePath.getD o.basePath,
    variablePrefix := c.variablePrefix.getD o.variablePrefix }

/-- Modelled from the spec (section 4.3 in the words of claim C4): the
simultaneous substitution of all placeholders in the original content —
each position of the content is matched against every placeholder
`variablePrefix + key`, the first matching attribute value is emitted, and
emitted values are never re-scanned.  `fuel` bounds the scan as in
`jsReplaceAllGo`. -/
def simultaneousSubstGo (opts : Options) (attrs : List Attribute) :
    Nat → List Char → List Char
  | 0, l => l
  | _fuel + 1, [] => []
  | fuel + 1, c :: t =>
    match attrs.find? (fun a => !(opts.variablePrefix ++ a.key).data.isEmpty &&
        startsWithL (opts.variablePrefix ++ a.key).data (c :: t)) with
    | some a =>
      a.value.data ++ simultaneousSubstGo opts attrs fuel
        ((c :: t).drop (opts.variablePrefix ++ a.key).data.length)
    | none => c :: simultaneousSubstGo opts attrs fuel t

/-- Simultaneous substitution over a string (the comparison point that the
spec describes for the Variable Substitutor). -/
def simultaneousSubst (opts : Options) (attrs : List Attribute)
    (content : String) : String :=
  String.mk (simultaneousSubstGo opts attrs (content.data.length + 1) content.data)

/-- The three-level filesystem for claim C1: A includes B.html, B.html
includes C.html. -/
def fsC1 : FS :=
  [("B.html", "@@title and <partial src=\"C.html\"/>"), ("C.html", "deep")]

/-- The filesystem for claim C3. -/
def fsC3 : FS := [("f.html", "@@a-@@b")]

/-- The filesystems for claim C5. -/
def fsC5 : FS := [("f.html", "@@a")]

def fsC5b : FS := [("f.html", "T: @@title!")]

/-- The filesystem for claim C7. -/
def fsC7 : FS := [("f.html", "hi")]

/-- The fixtures for claim C9. -/
def fsC9 : FS := [("f.html", "hello")]

def cfgTagX : Config := { tagName := some "x" }

def cfgEmpty : Config := {}

theorem startsWithL_length {pat l : List Char} (h : startsWithL pat l = true) :
    pat.length ≤ l.length := by
  induction pat generalizing l with
  | nil => simp
  | cons p ps ih =>
    cases l with
    | nil => simp [startsWithL] at h
    | cons c cs =>
      simp only [startsWithL, Bool.and_eq_true] at h
      simpa using Nat.succ_le_succ (ih h.2)

theorem expandReplGo_no_dollar (matched before after : List Char)
    (repl : List Char) (h : '$' ∉ repl) :
    expandReplGo matched before after repl = repl := by
  induction repl with
  | nil => rfl
  | cons c t ih =>
    have hc : c ≠ '$' := fun he => h (he ▸ List.mem_cons_self c t)
    have ht : '$' ∉ t := fun hm => h (List.mem_cons_of_mem c hm)
    rw [expandReplGo.eq_def]
    simp [hc, ih ht]

/-- Escaping makes any string a literal pattern that denotes itself: the
formal content of the source's `escapeRegExp` being a correct escaper. -/
theorem unescapePattern_escapeRegExp (l : List Char) :
    unescapePattern (escapeRegExp l) = some l := by
  induction l with
  | nil => rfl
  | cons c t ih =>
    by_cases hc : escClass c = true
    · simp [escapeRegExp, hc, unescapePattern, ih]
    · have hc0 : escClass c = false := eq_false_of_ne_true hc
      have hc1 := hc0
      simp only [escClass, Bool.or_eq_false_iff, beq_eq_false_iff_ne, ne_eq] at hc1
      have hmeta : isRegexMeta c = false := by
        simp only [isRegexMeta, Bool.or_eq_false_iff, beq_eq_false_iff_ne, ne_eq]
        tauto
      have hbs : c ≠ '\\' := by tauto
      rw [escapeRegExp, if_neg (by simp [hc0]), unescapePattern.eq_def]
      simp [hbs, hmeta, ih]

theorem iterRun_le_length (l : List Char) : iterRun l ≤ l.length := by
  induction l with
  | nil => simp [iterRun]
  | cons c t ih =>
    rw [iterRun]
    split
    · simp only [List.length_cons]
      omega
    · simp

theorem valueLen_bounds {v : List Char} {n : Nat} (h : valueLen v = some n) :
    2 ≤ n ∧ n ≤ v.length := by
  unfold valueLen at h
  split at h
  · exact absurd h (by simp)
  · rename_i hm0
    have hm1 : iterRun v ≠ 0 := by simpa using hm0
    split at h
    · rename_i hdot
      obtain rfl : iterRun v + 1 = n := by simpa using h
      have hlt : iterRun v < v.length := by
        unfold dotAt at hdot
        rcases hg : v.get? (iterRun v) with _ | c
        · rw [hg] at hdot; simp at hdot
        · exact (List.get?_eq_some.mp hg).1
      omega
    · split at h
      · rename_i h2
        obtain rfl : iterRun v = n := by simpa using h
        exact ⟨h2, iterRun_le_length v⟩
      · exact absurd h (by simp)

theorem valueTail_value {start : List Char} {v : String} {n : Nat}
    (h : valueTail start = some (v, n)) : 2 ≤ v.length ∧ 1 ≤ n := by
  unfold valueTail at h
  rcases hv : valueLen start with _ | m
  · rw [hv] at h; simp at h
  · rw [hv] at h
    simp only [Option.some.injEq, Prod.mk.injEq] at h
    obtain ⟨hveq, hneq⟩ := h
    have hb := valueLen_bounds hv
    subst hveq
    subst hneq
    refine ⟨?_, by omega⟩
    show 2 ≤ (List.take m start).length
    simp only [List.length_take]
    omega

theorem afterEq_value {rest : List Char} {v : String} {n : Nat}
    (h : afterEq rest = some (v, n)) : 2 ≤ v.length ∧ 1 ≤ n := by
  rcases rest with _ | ⟨c, t⟩
  · simp [afterEq] at h
  · simp only [afterEq] at h
    split at h
    · rcases hv : valueTail t with _ | ⟨v2, n2⟩
      · rw [hv] at h
        exact valueTail_value h
      · rw [hv] at h
        simp only [Option.some.injEq, Prod.mk.injEq] at h
        obtain ⟨hveq, hneq⟩ := h
        have hb := valueTail_value hv
        subst hveq
        subst hneq
        exact ⟨hb.1, by omega⟩
    · exact valueTail_value h

/-- Soundness facts about one attribute-regex attempt: keys are nonempty
and whitespace-free (they come from `\S+`), values have length at least 2,
and the match consumes at least one character. -/
theorem keySearch_sound {l : List Char} {k : Nat} {a : Attribute} {n : Nat}
    (h : keySearch l k = some (a, n)) :
    a.key ≠ "" ∧ (∀ c ∈ a.key.data, jsWS c = false) ∧
      2 ≤ a.value.length ∧ 1 ≤ n := by
  induction k with
  | zero => simp [keySearch] at h
  | succ k ih =>
    rw [keySearch] at h
    split at h
    · rename_i hcond
      simp only [Bool.and_eq_true] at hcond
      obtain ⟨hkey, heq⟩ := hcond
      split at h
      · rename_i v m hafter
        simp only [Option.some.injEq, Prod.mk.injEq] at h
        obtain ⟨ha, hn⟩ := h
        subst ha
        subst hn
        have hlen : k + 1 < l.length := by
          have : l.get? (k + 1) = some '=' := by simpa using heq
          exact (List.get?_eq_some.mp this).1
        have htake : (l.take (k + 1)).length = k + 1 := by
          simp only [List.length_take]
          omega
        refine ⟨?_, ?_, ?_, by omega⟩
        · intro hcontra
          have : (l.take (k + 1)).length = 0 := by
            have : l.take (k + 1) = ([] : List Char) := by
              have := congrArg String.data hcontra
              simpa using this
            simp [this]
          omega
        · intro c hc
          have := List.all_eq_true.mp hkey c hc
          simpa using this
        · exact (afterEq_value hafter).1
      · exact ih h
    · exact ih h

theorem findMatchAttr_sound {l : List Char} {a : Attribute} {off n : Nat}
    (h : findMatchAttr l = some (a, off, n)) :
    a.key ≠ "" ∧ (∀ c ∈ a.key.data, jsWS c = false) ∧
      2 ≤ a.value.length ∧ 1 ≤ n := by
  induction l generalizing off with
  | nil => simp [findMatchAttr] at h
  | cons c t ih =>
    rw [findMatchAttr] at h
    unfold findMatchStep at h
    split at h
    · rename_i a2 n2 htry
      simp only [Option.some.injEq, Prod.mk.injEq] at h
      obtain ⟨ha, _, hn⟩ := h
      subst ha
      subst hn
      have := keySearch_sound htry
      exact ⟨this.1, this.2.1, this.2.2.1, this.2.2.2⟩
    · rcases hf : findMatchAttr t with _ | ⟨a2, off2, n2⟩
      · rw [hf] at h; simp at h
      · rw [hf] at h
        simp only [Option.map_some', Option.some.injEq, Prod.mk.injEq] at h
        obtain ⟨ha, _, hn⟩ := h
        subst ha
        subst hn
        exact ih hf

theorem getAttrsAux_sound {fuel : Nat} {l : List Char} {a : Attribute}
    (h : a ∈ getAttrsAux fuel l) :
    a.key ≠ "" ∧ (∀ c ∈ a.key.data, jsWS c = false) ∧ 2 ≤ a.value.length := by
  induction fuel generalizing l with
  | zero => simp [getAttrsAux] at h
  | succ fuel ih =>
    rw [getAttrsAux] at h
    unfold getAttrsCont at h
    split at h
    · rename_i a2 off n hf
      rcases List.mem_cons.mp h with rfl | hmem
      · have := findMatchAttr_sound hf
        exact ⟨this.1, this.2.1, this.2.2.1⟩
      · exact ih hmem
    · simp at h

theorem collapseGo_no_newline (l : List Char) :
    ∀ (prevCR : Bool), ∀ c ∈ collapseGo prevCR l, c ≠ '\n' ∧ c ≠ '\r' := by
  induction l with
  | nil => intro prevCR c hc; simp [collapseGo] at hc
  | cons c t ih =>
    intro prevCR d hd
    rw [collapseGo] at hd
    by_cases h1 : (c == '\r') = true
    · rw [if_pos h1] at hd
      rcases List.mem_cons.mp hd with rfl | hm
      · exact ⟨by decide, by decide⟩
      · exact ih true d hm
    · rw [if_neg h1] at hd
      by_cases h2 : (c == '\n') = true
      · rw [if_pos h2] at hd
        by_cases h3 : prevCR = true
        · rw [if_pos h3] at hd
          exact ih false d hd
        · rw [if_neg h3] at hd
          rcases List.mem_cons.mp hd with rfl | hm
          · exact ⟨by decide, by decide⟩
          · exact ih false d hm
      · rw [if_neg h2] at hd
        rcases List.mem_cons.mp hd with rfl | hm
        · constructor
          · intro he
            exact h2 (by simp [he])
          · intro he
            exact h1 (by simp [he])
        · exact ih false d hm

theorem collapseNewlinesL_no_newline (l : List Char) :
    ∀ c ∈ collapseNewlinesL l, c ≠ '\n' ∧ c ≠ '\r' :=
  collapseGo_no_newline l false

theorem jsReplaceAllGo_nil (pat repl orig : List Char) (fuel i : Nat)
    (h : pat ≠ []) : jsReplaceAllGo pat repl orig fuel i [] = [] := by
  have hne : pat.isEmpty = false := by
    cases pat with
    | nil => exact absurd rfl h
    | cons a b => rfl
  cases fuel with
  | zero => rfl
  | succ fuel => simp [jsReplaceAllGo, hne]

theorem substituteOne_empty (opts : Options) (a : Attribute)
    (hk : a.key ≠ "") : substituteOne opts "" a = "" := by
  have hkd : a.key.data ≠ [] := by
    intro hc
    exact hk (congrArg String.mk hc)
  have hd : (opts.variablePrefix ++ a.key).data ≠ [] := by
    show opts.variablePrefix.data ++ a.key.data ≠ []
    simp [hkd]
  unfold substituteOne jsReplaceAll
  rw [unescapePattern_escapeRegExp]
  show String.mk (jsReplaceAllGo (opts.variablePrefix ++ a.key).data a.value.data [] 1 0 []) = ""
  rw [jsReplaceAllGo_nil _ _ _ _ _ hd]

theorem replaceAttributes_none (opts : Options) (attrs : List Attribute)
    (h : ∀ a ∈ attrs, a.key ≠ "") :
    replaceAttributes opts none attrs = "" := by
  unfold replaceAttributes
  simp only [Option.getD_none]
  induction attrs with
  | nil => rfl
  | cons a rest ih =>
    rw [List.foldl_cons,
      substituteOne_empty opts a (h a (List.mem_cons_self a rest))]
    exact ih (fun b hb => h b (List.mem_cons_of_mem a hb))

theorem notFoundMsg_names (p : String) : p.data <:+: (notFoundMsg p).data := by
  refine ⟨(pluginName ++ ": " ++ "File ").data, " does not exist.".data, ?_⟩
  show (pluginName ++ ": " ++ "File ").data ++ p.data ++ " does not exist.".data =
    (notFoundMsg p).data
  unfold notFoundMsg logLine
  show (pluginName ++ ": " ++ "File ").data ++ p.data ++ " does not exist.".data =
    (pluginName ++ ": " ++ ("File " ++ p ++ " does not exist.")).data
  show (pluginName.data ++ ": ".data ++ "File ".data) ++ p.data ++ " does not exist.".data =
    pluginName.data ++ ": ".data ++ ("File ".data ++ p.data ++ " does not exist.".data)
  simp [List.append_assoc]

/-- Claim C1, counterexample: with the literal one-character title value
`X` of the claim, the attribute regex absorbs the opening quote into the
captured value, so `@@title` is replaced by `"X` rather than `X`: the
resolved output is not the recursively resolved content of B.html with
`@@title` replaced by `X`. -/
theorem C1_counterexample :
    (injectString 3 defaultOptions fsC1 "<partial src=\"B.html\" title=\"X\"/>").1 =
      "\"X and deep" ∧
    (injectString 3 defaultOptions fsC1 "<partial src=\"B.html\" title=\"X\"/>").1 ≠
      jsReplaceAll
        (injectString 2 defaultOptions fsC1 (readFileSync fsC1 "B.html")).1
        "@@title" "X" := by
  exact ⟨by decide, by decide⟩

/-- Claim C1 (amended): for a title value of at least two characters (here
`XY`), resolving file A containing `<partial src="B.html" title="XY"/>`
yields the content of B.html, itself recursively resolved (three levels: A
includes B includes C), with every occurrence of `@@title` replaced by
`XY`.  With a one-character value the attribute parser keeps the opening
quote in the value (see the counterexample). -/
theorem C1_recursive_resolution :
    injectString 3 defaultOptions fsC1 "<partial src=\"B.html\" title=\"XY\"/>" =
      (jsReplaceAll
        (injectString 2 defaultOptions fsC1 (readFileSync fsC1 "B.html")).1
        "@@title" "XY", []) ∧
    (injectString 2 defaultOptions fsC1 (readFileSync fsC1 "B.html")).1 =
      "@@title and deep" ∧
    injectString 3 defaultOptions fsC1 "<partial src=\"B.html\" title=\"XY\"/>" =
      ("XY and deep", []) := by
  exact ⟨by decide, by decide, by decide⟩

theorem getAttributes_keys_ne {tag : String} {a : Attribute}
    (h : a ∈ getAttributes tag) : a.key ≠ "" :=
  (getAttrsAux_sound h).1

/-- Claim C2: a tag occurrence whose attributes contain no `src` key, or
whose path `basePath + src` does not exist, resolves to empty content with
exactly one error log entry (naming the unresolved path in the
nonexistent-file case); resolution never aborts and every other tag of the
document is resolved exactly as it would be without the failing tag (shown
on a document carrying one good and one missing include, whose good output
`GOOD` is byte-identical to the output of the document without the failing
tag). -/
theorem C2_local_error_recovery :
    (∀ (fuel : Nat) (opts : Options) (fs : FS) (tag : String),
      (getAttributes tag).filter (fun a => a.key == "src") = [] →
      getPartial fuel opts fs (getAttributes tag) = ("", [missingSrcMsg])) ∧
    (∀ (fuel : Nat) (opts : Options) (fs : FS) (tag : String) (a : Attribute),
      ((getAttributes tag).filter (fun a => a.key == "src")).head? = some a →
      existsSync fs (opts.basePath ++ a.value) = false →
      getPartial fuel opts fs (getAttributes tag) =
        ("", [notFoundMsg (opts.basePath ++ a.value)]) ∧
      (opts.basePath ++ a.value).data <:+:
        (notFoundMsg (opts.basePath ++ a.value)).data) ∧
    (injectString 2 defaultOptions [("good.html", "GOOD")]
        "<partial src=\"good.html\"/><partial src=\"missing.html\"/>" =
      ("GOOD", [notFoundMsg "missing.html"]) ∧
    injectString 2 defaultOptions [("good.html", "GOOD")]
        "<partial src=\"good.html\"/>" = ("GOOD", []) ∧
    injectString 2 defaultOptions [("good.html", "GOOD")]
        "<partial title=\"hello\"/>" = ("", [missingSrcMsg])) := by
  refine ⟨?_, ?_, by decide, by decide, by decide⟩
  · intro fuel opts fs tag hfilter
    unfold getPartial getPartialAux
    rw [hfilter]
    simp only [List.head?_nil]
    rw [replaceAttributes_none]
    intro a ha
    exact getAttributes_keys_ne (List.mem_of_mem_filter ha)
  · intro fuel opts fs tag a hhead hex
    have hmem : a ∈ getAttributes tag := by
      have h1 : a ∈ (getAttributes tag).filter (fun a => a.key == "src") := by
        cases hl : (getAttributes tag).filter (fun a => a.key == "src") with
        | nil => rw [hl] at hhead; simp at hhead
        | cons b rest =>
          rw [hl] at hhead
          simp only [List.head?_cons, Option.some.injEq] at hhead
          subst hhead
          exact List.mem_cons_self b rest
      exact List.mem_of_mem_filter h1
    have hval : a.value ≠ "" := by
      intro hc
      have h2 := (getAttrsAux_sound hmem).2.2
      rw [hc] at h2
      simp [String.length] at h2
    have hvalb : (a.value == "") = false := by
      simpa using hval
    refine ⟨?_, notFoundMsg_names _⟩
    unfold getPartial getPartialAux
    simp only [hhead, hvalb, Bool.false_eq_true, if_false, hex]
    rw [replaceAttributes_none]
    intro b hb
    exact getAttributes_keys_ne (List.mem_of_mem_filter hb)

/-- Claim C2 witness: a concrete tag with no `src` attribute resolves to
empty content with exactly one error line. -/
theorem C2_witness :
    getPartial 1 defaultOptions [] (getAttributes "<partial title=\"hello\"/>") =
      ("", [missingSrcMsg]) :=
  C2_local_error_recovery.1 1 defaultOptions [] "<partial title=\"hello\"/>"
    (by decide)

/-- Claim C3: for the document `<partial src="f.html" a="1" b="2"/>` with
f.html containing `@@a-@@b`, the claim expects the output to contain
`1-2`; the code instead captures the one-character attribute values as
`"1` and `"2` (the opening quote is absorbed by the value group of the
attribute regex, which cannot match a single character), producing
`"1-"2`, which does not contain `1-2`.  This theorem evaluates the code at
the failing input. -/
theorem C3_multiple_variables_quirk :
    (injectString 2 defaultOptions fsC3
        "<partial src=\"f.html\" a=\"1\" b=\"2\"/>").1 = "\"1-\"2" ∧
    ¬ ("1-2".data <:+:
      (injectString 2 defaultOptions fsC3
        "<partial src=\"f.html\" a=\"1\" b=\"2\"/>").1.data) ∧
    getAttributes "<partial src=\"f.html\" a=\"1\" b=\"2\"/>" =
      [⟨"src", "f.html"⟩, ⟨"a", "\"1"⟩, ⟨"b", "\"2"⟩] := by
  exact ⟨by decide, by decide, by decide⟩

/-- Claim C4, counterexample: the substitutor is chained, not simultaneous.
With content `@@a` and attributes `a := "@@b"`, `b := "X"`, the sequential
fold first rewrites the content to `@@b` and then rewrites that inserted
value to `X`; the simultaneous substitution of the original content yields
`@@b`. -/
theorem C4_counterexample :
    replaceAttributes defaultOptions (some "@@a") [⟨"a", "@@b"⟩, ⟨"b", "X"⟩] =
      "X" ∧
    simultaneousSubst defaultOptions [⟨"a", "@@b"⟩, ⟨"b", "X"⟩] "@@a" = "@@b" ∧
    replaceAttributes defaultOptions (some "@@a") [⟨"a", "@@b"⟩, ⟨"b", "X"⟩] ≠
      simultaneousSubst defaultOptions [⟨"a", "@@b"⟩, ⟨"b", "X"⟩] "@@a" := by
  exact ⟨by decide, by decide, by decide⟩

/-- Claim C4 (amended): the substitutor applies the substitutions
sequentially in attribute order — the result after one attribute is the
starting content for the next — so a value inserted for one attribute IS
re-scanned and replaced for later attributes, as the concrete chain
demonstrates. -/
theorem C4_sequential_substitution :
    (∀ (opts : Options) (file : Option String) (a : Attribute)
        (rest : List Attribute),
      replaceAttributes opts file (a :: rest) =
        replaceAttributes opts (some (substituteOne opts (file.getD "") a)) rest) ∧
    replaceAttributes defaultOptions (some "@@a") [⟨"a", "@@b"⟩, ⟨"b", "X"⟩] =
      "X" := by
  refine ⟨?_, by decide⟩
  intro opts file a rest
  rfl

/-- Claim C5, counterexample: body content of the closed form is NOT
ignored.  The attribute regex runs over the whole tag text, body included:
with body `a="zz"` the greedy `\S+` of the key pattern even swallows
`src="f.html">a` into one key, so the `src` attribute disappears, the
resolver logs a missing-src error and the two forms resolve to different
outputs (`@@a` versus empty). -/
theorem C5_counterexample :
    injectString 2 defaultOptions fsC5 "<partial src=\"f.html\"/>" =
      ("@@a", []) ∧
    injectString 2 defaultOptions fsC5
        "<partial src=\"f.html\">a=\"zz\"</partial>" = ("", [missingSrcMsg]) ∧
    getAttributes "<partial src=\"f.html\">a=\"zz\"</partial>" =
      [⟨"src=\"f.html\">a", "zz"⟩] ∧
    injectString 2 defaultOptions fsC5 "<partial src=\"f.html\"/>" ≠
      injectString 2 defaultOptions fsC5
        "<partial src=\"f.html\">a=\"zz\"</partial>" := by
  exact ⟨by decide, by decide, by decide, by decide⟩

/-- Claim C5 (amended): the self-closing form and the closed form with
EMPTY body resolve to identical output given identical attributes (the
attribute parser extracts the same attributes from both tag texts); body
text, when present, is scanned for attributes and can change the result. -/
theorem C5_forms_equivalent_empty_body :
    injectString 2 defaultOptions fsC5b
        "<partial src=\"f.html\" title=\"hello\"/>" =
      injectString 2 defaultOptions fsC5b
        "<partial src=\"f.html\" title=\"hello\"></partial>" ∧
    injectString 2 defaultOptions fsC5b
        "<partial src=\"f.html\" title=\"hello\"/>" = ("T: hello!", []) ∧
    getAttributes "<partial src=\"f.html\" title=\"hello\"/>" =
      getAttributes "<partial src=\"f.html\" title=\"hello\"></partial>" := by
  exact ⟨by decide, by decide, by decide⟩

/-- Claim C6, counterexample: the attribute value is NOT inserted verbatim.
JavaScript string replacement interprets dollar sequences in the
replacement value: the value `$$` is inserted as `$`. -/
theorem C6_counterexample :
    replaceAttributes defaultOptions (some "@@k") [⟨"k", "$$"⟩] = "$" ∧
    replaceAttributes defaultOptions (some "@@k") [⟨"k", "$$"⟩] ≠ "$$" := by
  exact ⟨by decide, by decide⟩

/-- Claim C6 (amended): substitution replaces all occurrences of the
literal token `prefix + key` (global, case-sensitive; `escapeRegExp` makes
every pattern character literal, so regex metacharacters have no special
effect), and the value is inserted verbatim PROVIDED it contains no `$`:
dollar sequences in the value (`$$`, `$&`, backtick and quote forms) are
interpreted by the JavaScript replacement semantics. -/
theorem C6_literal_global_substitution :
    (∀ s : String, unescapePattern (escapeRegExp s.data) = some s.data) ∧
    (∀ (matched before after repl : List Char), '$' ∉ repl →
      expandReplGo matched before after repl = repl) ∧
    replaceAttributes defaultOptions (some "x @@k y @@k z @@k")
      [⟨"k", "V"⟩] = "x V y V z V" ∧
    replaceAttributes defaultOptions (some "@@K @@kk") [⟨"k", "V"⟩] =
      "@@K Vk" := by
  refine ⟨?_, ?_, by decide, by decide⟩
  · intro s
    exact unescapePattern_escapeRegExp s.data
  · intro matched before after repl h
    exact expandReplGo_no_dollar matched before after repl h

/-- Claim C6 witness: a dollar-free replacement value passes through the
expansion verbatim. -/
theorem C6_witness : expandReplGo [] [] [] "abc".data = "abc".data :=
  C6_literal_global_substitution.2.1 [] [] [] "abc".data (by decide)

/-- Claim C7: the formatter first replaces each line break with a single
space (no line break survives), then inserts a line break immediately
before every opening `<partial` and after every `partial>`; consequently a
tag whose attributes are split across source lines is still detected and
resolved (the multi-line tag below resolves to the content of f.html). -/
theorem C7_formatter_normalization :
    (∀ (s : String) (c : Char), c ∈ collapseNewlinesL s.data →
      c ≠ '\n' ∧ c ≠ '\r') ∧
    normalizeDoc defaultOptions "<partial\n  src=\"f.html\"\n/>" =
      "\n<partial   src=\"f.html\" />" ∧
    injectString 1 defaultOptions fsC7 "<partial\n  src=\"f.html\"\n/>" =
      ("hi", []) := by
  refine ⟨?_, by decide, by decide⟩
  intro s c hc
  exact collapseNewlinesL_no_newline s.data c hc

/-- Claim C7 witness: the surviving character of a collapsed line is not a
line break. -/
theorem C7_witness : ('a' : Char) ≠ '\n' ∧ ('a' : Char) ≠ '\r' :=
  C7_formatter_normalization.1 "a\nb" 'a' (by decide)

/-- Claim C8: a streaming input produces the streams-unsupported error and
passes through entirely unmodified, for every configuration, filesystem and
nesting budget — the resolution engine is never consulted (the result does
not depend on `fuel`, `opts` or `fs`). -/
theorem C8_streaming_rejection :
    ∀ (fuel : Nat) (opts : Options) (fs : FS) (s : String),
      transformOne fuel opts fs (FileObj.streamFile s) =
        (FileObj.streamFile s, [streamsErrMsg]) := by
  intro fuel opts fs s
  rfl

/-- Claim C9, counterexample: state persists across invocations.  The
module-level options are merged, not reset: after an earlier invocation
configured `tagName := "x"`, a later invocation with an empty configuration
still resolves `<x .../>` tags, while the same invocation with no earlier
invocation leaves the document unchanged — the same (document,
configuration, filesystem) triple yields two different outputs. -/
theorem C9_counterexample :
    transformOne 2 (applyConfig (applyConfig defaultOptions cfgTagX) cfgEmpty)
        fsC9 (FileObj.bufferFile "<x src=\"f.html\"/>") =
      (FileObj.bufferFile "hello", []) ∧
    transformOne 2 (applyConfig defaultOptions cfgEmpty) fsC9
        (FileObj.bufferFile "<x src=\"f.html\"/>") =
      (FileObj.bufferFile "<x src=\"f.html\"/>", []) ∧
    transformOne 2 (applyConfig (applyConfig defaultOptions cfgTagX) cfgEmpty)
        fsC9 (FileObj.bufferFile "<x src=\"f.html\"/>") ≠
      transformOne 2 (applyConfig defaultOptions cfgEmpty) fsC9
        (FileObj.bufferFile "<x src=\"f.html\"/>") := by
  exact ⟨by decide, by decide, by decide⟩

/-- Claim C9 (amended): resolution is a pure function of the document, the
EFFECTIVE options and the filesystem; the effective options persist across
invocations because each configuration is merged into the previous state.
An invocation whose configuration supplies all three keys is independent of
the inherited state, restoring history-independence. -/
theorem C9_pure_given_total_config :
    ∀ (fuel : Nat) (fs : FS) (o1 o2 : Options) (c : Config) (d : FileObj),
      c.tagName.isSome = true → c.basePath.isSome = true →
      c.variablePrefix.isSome = true →
      transformOne fuel (applyConfig o1 c) fs d =
        transformOne fuel (applyConfig o2 c) fs d := by
  intro fuel fs o1 o2 c d h1 h2 h3
  have heq : applyConfig o1 c = applyConfig o2 c := by
    obtain ⟨t, ht⟩ := Option.isSome_iff_exists.mp h1
    obtain ⟨b, hb⟩ := Option.isSome_iff_exists.mp h2
    obtain ⟨v, hv⟩ := Option.isSome_iff_exists.mp h3
    simp [applyConfig, ht, hb, hv]
  rw [heq]

/-- Claim C9 witness: a total configuration erases the inherited state. -/
theorem C9_witness :
    transformOne 1
        (applyConfig defaultOptions ⟨some "p", some "", some "@@"⟩) []
        (FileObj.bufferFile "x") =
      transformOne 1
        (applyConfig { tagName := "q", basePath := "b", variablePrefix := "$" }
          ⟨some "p", some "", some "@@"⟩) []
        (FileObj.bufferFile "x") :=
  C9_pure_given_total_config 1 [] defaultOptions
    { tagName := "q", basePath := "b", variablePrefix := "$" }
    ⟨some "p", some "", some "@@"⟩ (FileObj.bufferFile "x")
    (by decide) (by decide) (by decide)

/-- Claim C10: for every tag string the attribute parser terminates (it is
a total function) and every attribute it produces has a nonempty,
whitespace-free key and a value of at least two characters — the value
pattern `(?:.(?!...))+.` cannot match a single character. -/
theorem C10_attribute_shape :
    ∀ (tag : String), ∀ a ∈ getAttributes tag,
      a.key ≠ "" ∧ (∀ c ∈ a.key.data, jsWS c = false) ∧
        2 ≤ a.value.length := by
  intro tag a h
  exact getAttrsAux_sound h

/-- Claim C10 witness: the parsed `src` attribute of a concrete tag. -/
theorem C10_witness :
    (⟨"src", "f.html"⟩ : Attribute).key ≠ "" ∧
    (∀ c ∈ (⟨"src", "f.html"⟩ : Attribute).key.data, jsWS c = false) ∧
    2 ≤ (⟨"src", "f.html"⟩ : Attribute).value.length :=
  C10_attribute_shape "<partial src=\"f.html\"/>" ⟨"src", "f.html"⟩ (by decide)

theorem injectString_succ (fuel : Nat) (opts : Options) (fs : FS) (s : String) :
    injectString (fuel + 1) opts fs s =
      (prettyPrint (getHTML fuel opts fs (normalizeDoc opts s)).1,
        (getHTML fuel opts fs (normalizeDoc opts s)).2) := rfl
